import Mathlib

/-!
Shallow embedding of the caching layer of the `overcast-data` repository:
`requests_cache.py` (file-backed HTTP response cache), the rate-limit
handling in `overcast.py` (`_request`), and `lru_cache.py` (byte-budgeted
LRU cache).  Bytes are modelled as `Nat`, Python `datetime`s as `Nat`
seconds (with `datetime.min` as `0`), and the HTTP date format
(`strftime`/`strptime` with `"%a, %d %b %Y %H:%M:%S GMT"`) as an abstract
`DateCodec` that theorems assume round-trips, which the real format does at
second granularity.
-/

/-- Decimal digit character, `chr(48 + m)` for `m < 10`. -/
def digitChar (m : Nat) : Char := Char.ofNat (48 + m)

/-- Structural helper for decimal printing: the first argument is fuel,
always at least the number being printed. -/
def natToDecAux : Nat → Nat → List Char
  | 0, n => [digitChar n]
  | fuel + 1, n =>
    if n < 10 then [digitChar n]
    else natToDecAux fuel (n / 10) ++ [digitChar (n % 10)]

/-- Model of Python `str(n)` for a nonnegative int: decimal digits, msd first. -/
def natToDec (n : Nat) : List Char := natToDecAux n n

/-- Is this one of the characters `'0'`–`'9'`? -/
def isDecDigit (c : Char) : Bool := 48 ≤ c.toNat && c.toNat ≤ 57

/-- Model of Python `int(s)` restricted to plain decimal digit strings
(the only inputs the codec ever produces). -/
def pyIntChars (l : List Char) : Option Nat :=
  if l ≠ [] ∧ l.all isDecDigit then
    some (l.foldl (fun a c => a * 10 + (c.toNat - 48)) 0)
  else none

/-! ### Python string splitting primitives -/
/-- Model of Python `s.split(sep, 1)` when it succeeds: split at the first
occurrence of `sep`, returning the parts before and after.  `none` when `sep`
does not occur (in which case Python returns a single part and the callers'
tuple unpacking raises `ValueError`). -/
def splitFirst (sep : List Char) : List Char → Option (List Char × List Char)
  | [] => none
  | c :: rest =>
    if sep.isPrefixOf (c :: rest) then some ([], (c :: rest).drop sep.length)
    else (splitFirst sep rest).map (fun p => (c :: p.1, p.2))

/-! ### ASCII encoding and decoding of header text -/
/-- Model of `s.encode("ascii")` on a string already known to be ASCII: code points. -/
def asciiBytes (s : String) : List Nat := s.data.map Char.toNat

/-- Is every character of the string ASCII (so `encode("ascii")` succeeds)? -/
def isAsciiStr (s : String) : Bool := s.data.all (fun c => c.toNat < 128)

/-- Model of `bytes.decode("ascii")`: fails on non-ASCII bytes. -/
def asciiDecode (l : List Nat) : Option String :=
  if l.all (fun b => b < 128) then some (String.mk (l.map Char.ofNat)) else none

/-! ### Python `bytes.splitlines` and `b"\n".join` -/
/-- Model of Python `bytes.splitlines()`: split on `\n` (10), `\r` (13) and
`\r\n`; a trailing unterminated chunk is kept, a trailing terminator does not
produce an extra empty line. -/
def pySplitlines : List Nat → List (List Nat)
  | [] => []
  | b :: rest =>
    if b = 10 then [] :: pySplitlines rest
    else if b = 13 then
      match rest with
      | 10 :: rest2 => [] :: pySplitlines rest2
      | [] => [[]]
      | c :: rest2 => [] :: pySplitlines (c :: rest2)
    else
      match pySplitlines rest with
      | [] => [[b]]
      | line :: lines => (b :: line) :: lines

/-- Model of Python `b"\n".join(lines)`. -/
def joinNL : List (List Nat) → List Nat
  | [] => []
  | [l] => l
  | l :: ls => l ++ 10 :: joinNL ls

/-! ### `requests.structures.CaseInsensitiveDict` -/
/-- Model of `str.lower()` on ASCII header names, character by character.  (A
kernel-reducible equivalent of `String.toLower` for the ASCII strings HTTP
headers use.) -/
def lowerStr (s : String) : String := String.mk (s.data.map Char.toLower)

/-- Case-insensitive header-name comparison (`key.lower()`). -/
def ciKeyEq (a b : String) : Bool := lowerStr a == lowerStr b

/-- Model of `CaseInsensitiveDict.__setitem__`: overwriting a case-insensitively equal
key keeps its position (Python dict semantics) but stores the new
original-case key and value; a fresh key is appended at the end. -/
def ciSet (hs : List (String × String)) (k v : String) : List (String × String) :=
  if hs.any (fun p => ciKeyEq p.1 k) then
    hs.map (fun p => if ciKeyEq p.1 k then (k, v) else p)
  else hs ++ [(k, v)]

/-- Model of `CaseInsensitiveDict.__getitem__` / `.get`: value of the first (unique)
case-insensitively matching entry. -/
def ciGet (hs : List (String × String)) (k : String) : Option String :=
  (hs.find? (fun p => ciKeyEq p.1 k)).map (fun p => p.2)

/-- Model of `key in headers` for a `CaseInsensitiveDict`. -/
def ciContains (hs : List (String × String)) (k : String) : Bool :=
  hs.any (fun p => ciKeyEq p.1 k)

/-! ### `requests.Response` and the response codec (`requests_cache.py`) -/
/-- The parts of a `requests.Response` the cache persists: status code,
reason phrase, ordered headers (`CaseInsensitiveDict` insertion order) and
raw body bytes (`_content`). -/
structure Response where
  status_code : Nat
  reason : String
  headers : List (String × String)
  content : List Nat
deriving DecidableEq

/-- The status line `f"HTTP/1.1 {response.status_code} {response.reason}"`. -/
def statusLineStr (r : Response) : String :=
  "HTTP/1.1 " ++ String.mk (natToDec r.status_code) ++ " " ++ r.reason

/-- The header block built by the `for k, v in response.headers.items()`
loop: one `f"{k}: {v}\n"` per header. -/
def headerLinesStr : List (String × String) → String
  | [] => ""
  | p :: ps => p.1 ++ ": " ++ p.2 ++ "\n" ++ headerLinesStr ps

/-- The full ASCII header text of `response_to_bytes`: status line, newline,
header lines, blank line. -/
def headerText (r : Response) : String :=
  statusLineStr r ++ "\n" ++ headerLinesStr r.headers ++ "\n"

/-- Model of `response_to_bytes(response)`: headers text encoded as ASCII followed by
the raw body.  `none` models the `UnicodeEncodeError` Python raises when the
header text is not ASCII. -/
def response_to_bytes (r : Response) : Option (List Nat) :=
  if isAsciiStr (headerText r) then some (asciiBytes (headerText r) ++ r.content)
  else none

/-- The header-parsing loop of `bytes_to_response`: consume lines up to the
first blank line (`lines.index(b"")`), splitting each at the first `": "`
into a `CaseInsensitiveDict` entry; `none` models the `ValueError` raised
when no blank line exists or a line has no `": "`, or the
`UnicodeDecodeError` on non-ASCII header bytes. -/
def parseHeaderLines : List (List Nat) → List (String × String) →
    Option (List (String × String) × List (List Nat))
  | [], _ => none
  | [] :: rest, acc => some (acc, rest)
  | line :: rest, acc =>
    match asciiDecode line with
    | none => none
    | some s =>
      match splitFirst [':', ' '] s.data with
      | none => none
      | some (k, v) => parseHeaderLines rest (ciSet acc (String.mk k) (String.mk v))

/-- Model of `bytes_to_response(data)`: split into lines, parse the status line
(`split(" ", 2)` and `int`), parse headers up to the blank line, and join the
remaining lines with `\n` as the body.  `none` models any of the exceptions
the Python code can raise on malformed data. -/
def bytes_to_response (data : List Nat) : Option Response :=
  match pySplitlines data with
  | [] => none
  | l0 :: rest =>
    match asciiDecode l0 with
    | none => none
    | some s0 =>
      match splitFirst [' '] s0.data with
      | none => none
      | some (_, r1) =>
        match splitFirst [' '] r1 with
        | none => none
        | some (st, reason) =>
          match pyIntChars st with
          | none => none
          | some code =>
            match parseHeaderLines rest [] with
            | none => none
            | some (hs, bodyLines) =>
              some ⟨code, String.mk reason, hs, joinNL bodyLines⟩

/-- No carriage return or line feed in a string. -/
def noCRLF (s : String) : Bool := s.data.all (fun c => (c != '\n') && (c != '\r'))

/-- A header name parses back unambiguously: the first `": "` of
`name + ": "` is the one at the end (in particular the name contains no
`": "` of its own). -/
def nameOkB (k : String) : Bool :=
  splitFirst [':', ' '] (k.data ++ [':', ' ']) == some (k.data, [])

/-- Well-formedness of a response for exact codec round-tripping : ASCII
reason and headers without embedded newlines, unambiguous pairwise
case-insensitively distinct header names, and a body with no `\r` byte and
no trailing `\n` byte. -/
abbrev WFresp (r : Response) : Prop :=
  isAsciiStr r.reason = true ∧ noCRLF r.reason = true ∧
  (∀ p ∈ r.headers, isAsciiStr p.1 = true ∧ noCRLF p.1 = true ∧ nameOkB p.1 = true ∧
    isAsciiStr p.2 = true ∧ noCRLF p.2 = true) ∧
  (r.headers.map (fun p => lowerStr p.1)).Nodup ∧
  13 ∉ r.content ∧ r.content.getLast? ≠ some 10

/-! ### Dates (`response_date` / `response_expires`) -/
/-- The HTTP date format `"%a, %d %b %Y %H:%M:%S GMT"` as an abstract codec
over `Nat` timestamps; `strftime`/`strptime` round-trip at second
granularity, which theorems assume pointwise where needed. -/
structure DateCodec where
  format : Nat → String
  parse : String → Option Nat

/-- Model of `response_date(response)`: parse the `Date` header; `none` models the
`KeyError`/`ValueError` on a missing or unparseable header. -/
def response_date (dc : DateCodec) (r : Response) : Option Nat :=
  (ciGet r.headers "Date").bind dc.parse

/-- Model of `response_expires(response)`: `datetime.min` (modelled `0`) when there is
no `Expires` header, else parse it (`none` models the parse error). -/
def response_expires (dc : DateCodec) (r : Response) : Option Nat :=
  match ciGet r.headers "Expires" with
  | none => some 0
  | some v => dc.parse v

/-- A concrete decimal date codec used for witnesses: `format` is decimal
printing, `parse` decimal parsing. -/
def decCodec : DateCodec :=
  ⟨fun n => String.mk (natToDec n), fun s => pyIntChars s.data⟩

/-! ### `requests_cache.Session.get` -/
/-- Result of the underlying `requests.Session.send`: either an HTTP
response (any status) or a transport-level exception
(`requests.ConnectionError` etc., which is not an `HTTPError`). -/
inductive NetResult
  | resp (r : Response)
  | transportErr
deriving DecidableEq

/-- How one `Session.get` call ends: a returned `(response, is_cached)`
pair, or one of the exceptions it can raise.  `cacheReadErr` covers the
exceptions raised while reading/parsing the cached file (decode failure or
missing/bad `Date`/`Expires` headers), `dateErr` the `KeyError` on a network
response without a parseable `Date`, `encodeErr` the `UnicodeEncodeError`
when persisting. -/
inductive Outcome
  | ok (r : Response) (hit : Bool)
  | offlineErr
  | httpErr (r : Response)
  | transportErr
  | cacheReadErr
  | dateErr
  | encodeErr
deriving DecidableEq

/-- Arguments and ambient state of one `Session.get` call for a single cache
key: the date codec, session configuration (`_offline`,
`_min_time_between_requests`, `_last_request_at`), the bytes of the cache
file at the key (if it exists), the current time, what the network would
return, and the per-call `stale_cache_on_error` and `response_expires_in`. -/
structure GetArgs where
  dc : DateCodec
  offline : Bool
  minTime : Nat
  lastRequestAt : Nat
  file : Option (List Nat)
  now : Nat
  net : NetResult
  stale_cache_on_error : Bool
  ttl : Nat

/-- Result state of one `Session.get` call: the outcome, the cache file
contents after the call, the throttle timestamp after the call, and whether
a network request was issued. -/
structure GetOut where
  outcome : Outcome
  file : Option (List Nat)
  lastRequestAt : Nat
  networkCalled : Bool

/-- Model of `requests.Response.__bool__` (`self.ok`): `False` exactly when
`raise_for_status` would raise, i.e. for 4xx/5xx status codes.  The source's
`if cached_response:` checks use this truthiness, not an `is not None`
check. -/
def respTruthy (r : Response) : Bool :=
  !(decide (400 ≤ r.status_code) && decide (r.status_code < 600))

/-- The source's `raise_for_status` raises exactly for 400 ≤ status < 600. -/
def isErrorStatus (s : Nat) : Bool := decide (400 ≤ s) && decide (s < 600)

/-- The part of `Session.get` after the cache-freshness check failed: the
offline branch (lines 99–104 of `requests_cache.py`). -/
def getOfflinePhase (a : GetArgs) (cached : Option Response) : GetOut :=
  match cached with
  | some c =>
    if respTruthy c then ⟨.ok c true, a.file, a.lastRequestAt, false⟩
    else ⟨.offlineErr, a.file, a.lastRequestAt, false⟩
  | none => ⟨.offlineErr, a.file, a.lastRequestAt, false⟩

/-- The network part of `Session.get` (lines 106–128): throttle, send,
`raise_for_status` with stale-cache fallback, then stamp `Expires` and
persist. -/
def getNetworkPhase (a : GetArgs) (cached : Option Response) : GetOut :=
  let last' := max a.now (a.lastRequestAt + a.minTime)
  match a.net with
  | .transportErr => ⟨.transportErr, a.file, last', true⟩
  | .resp r =>
    if isErrorStatus r.status_code then
      match cached with
      | some c =>
        if a.stale_cache_on_error && respTruthy c then ⟨.ok c true, a.file, last', true⟩
        else ⟨.httpErr r, a.file, last', true⟩
      | none => ⟨.httpErr r, a.file, last', true⟩
    else
      match response_date a.dc r with
      | none => ⟨.dateErr, a.file, last', true⟩
      | some d =>
        let r' : Response :=
          { r with headers := ciSet r.headers "Expires" (a.dc.format (d + a.ttl)) }
        match response_to_bytes r' with
        | none => ⟨.encodeErr, a.file, last', true⟩
        | some out => ⟨.ok r' false, some out, last', true⟩

/-- Model of `Session.get`: read and parse the cached file, serve it when fresh,
apply the offline policy, otherwise go to the network. -/
def Session.get (a : GetArgs) : GetOut :=
  match a.file with
  | none =>
    if a.offline then getOfflinePhase a none else getNetworkPhase a none
  | some bs =>
    match bytes_to_response bs with
    | none => ⟨.cacheReadErr, a.file, a.lastRequestAt, false⟩
    | some cached =>
      match response_date a.dc cached with
      | none => ⟨.cacheReadErr, a.file, a.lastRequestAt, false⟩
      | some _ =>
        match response_expires a.dc cached with
        | none => ⟨.cacheReadErr, a.file, a.lastRequestAt, false⟩
        | some exp =>
          if a.now < exp then ⟨.ok cached true, a.file, a.lastRequestAt, false⟩
          else if a.offline then getOfflinePhase a (some cached)
          else getNetworkPhase a (some cached)

/-! ### `overcast._request` -/
/-- How one `overcast._request` call ends. -/
inductive ReqOutcome
  | ok (r : Response)
  | ratedLimited
  | loggedOut
  | httpErr (r : Response)
  | offlineErr
  | transportErr
  | cacheReadErr
  | dateErr
  | encodeErr
deriving DecidableEq

/-- The sentinel `"Log In"` checked against `response.text`. -/
def loginMarker : List Nat := asciiBytes "Log In"

/-- Python `pat in text` on bytes: contiguous-substring test. -/
def infixBytes (pat : List Nat) : List Nat → Bool
  | [] => pat.isEmpty
  | b :: rest => pat.isPrefixOf (b :: rest) || infixBytes pat rest

/-- Model of `overcast._request`: calls `Session.get` (with the *default*
`stale_cache_on_error=True` — `_request` does not pass the flag), maps an
`HTTPError` with status 429 to `RatedLimitedError`, re-raises other
`HTTPError`s, lets every other exception propagate, and raises
`LoggedOutError` when the served body contains the login sentinel. -/
def overcastRequest (a : GetArgs) : ReqOutcome :=
  match (Session.get { a with stale_cache_on_error := true }).outcome with
  | .ok r _ => if infixBytes loginMarker r.content then .loggedOut else .ok r
  | .httpErr r => if r.status_code == 429 then .ratedLimited else .httpErr r
  | .offlineErr => .offlineErr
  | .transportErr => .transportErr
  | .cacheReadErr => .cacheReadErr
  | .dateErr => .dateErr
  | .encodeErr => .encodeErr

/-! ### `Session.cache_path` -/
/-- The table `_DEFAULT_MIME_TYPE_EXTNAMES` from `requests_cache.py`. -/
def DEFAULT_MIME_TYPE_EXTNAMES : List (String × String) :=
  [("application/json", "json"), ("application/xml", "xml"), ("text/html", "html")]

/-- Model of `self.mime_type_extnames.get(accept)` where the session dict is the
defaults updated with the user-supplied entries (user entries win). -/
def mimeLookup (extra : List (String × String)) (accept : String) : Option String :=
  match extra.find? (fun p => p.1 == accept) with
  | some p => some p.2
  | none => (DEFAULT_MIME_TYPE_EXTNAMES.find? (fun p => p.1 == accept)).map (fun p => p.2)

/-- Model of `str.removeprefix("/")`: drops at most one leading slash. -/
def removePrefixSlash (s : String) : String :=
  match s.data with
  | '/' :: rest => String.mk rest
  | _ => s

/-- Splitting a path string on `/` into components (the effect of
`self._cache_dir / url_path` on a multi-segment relative path). -/
def splitOnSlash : List Char → List (List Char)
  | [] => [[]]
  | c :: rest =>
    if c = '/' then [] :: splitOnSlash rest
    else
      match splitOnSlash rest with
      | [] => [[c]]
      | seg :: segs => (c :: seg) :: segs

/-- The `pathlib.PurePath.suffix` length in characters of a file name: the part
from the last dot, unless the dot is the first or the last character. -/
def pySuffixLen (name : List Char) : Nat :=
  match name.reverse.findIdx? (fun c => c == '.') with
  | none => 0
  | some j =>
    let i := name.length - 1 - j
    if 0 < i ∧ i < name.length - 1 then name.length - i else 0

/-- Model of `pathlib.Path.with_suffix`: strip the existing suffix (if any), append
the new one. -/
def pyWithSuffix (name : String) (suffix : String) : String :=
  String.mk (name.data.take (name.data.length - pySuffixLen name.data)) ++ suffix

/-- Apply `f` to the final path segment (`Path.with_name`). -/
def withLastName : List String → (String → String) → List String
  | [], _ => []
  | [x], f => [f x]
  | x :: xs, f => x :: withLastName xs f

/-- The pre-extension part of `Session.cache_path`, as path segments below
the cache root: `host / url-path-without-leading-slash`, with a non-empty
query appended to the final segment as a literal `?query`. -/
def cache_path_base (host : String) (urlPath query : String) : List String :=
  let segs0 := host :: (splitOnSlash (removePrefixSlash urlPath).data).map String.mk
  if query ≠ "" then withLastName segs0 (fun n => n ++ "?" ++ query) else segs0

/-- Model of `Session.cache_path`: the base path, then the Accept-derived extension
applied with `Path.with_suffix` when the (default-merged) extension table
knows the Accept value; an unknown or `*/*` Accept changes nothing. -/
def cache_path (host : String) (extra : List (String × String))
    (urlPath query : String) (accept : Option String) : List String :=
  let segs1 := cache_path_base host urlPath query
  match accept with
  | none => segs1
  | some a =>
    match mimeLookup extra a with
    | some ext => withLastName segs1 (fun n => pyWithSuffix n ("." ++ ext))
    | none => segs1

/-- The cache-path mapper exactly as §4.1 of the spec words it: same base
path and query handling, but the extension is *appended* to the file name
(`name + "." + ext`) rather than applied with `with_suffix`. -/
def cache_path_specAppend (host : String) (extra : List (String × String))
    (urlPath query : String) (accept : Option String) : List String :=
  let segs1 := cache_path_base host urlPath query
  match accept with
  | none => segs1
  | some a =>
    match mimeLookup extra a with
    | some ext => withLastName segs1 (fun n => n ++ "." ++ ext)
    | none => segs1

/-! ### `Session.purge_cache` -/
/-- The per-entry deletion decision of `purge_cache` (lines 183–195): an
entry is deleted when its `Expires` has passed, or — as the code is written
— when its `Date` lies *more than `older_than` in the future*
(`oldest_date = now + older_than`, `date > oldest_date`).  `none` models the
exception on an unparseable `Date`/`Expires`. -/
def purgeCacheDeletes (dc : DateCodec) (now olderThan : Nat) (r : Response) : Option Bool :=
  match response_date dc r with
  | none => none
  | some date =>
    match response_expires dc r with
    | none => none
    | some expires =>
      some (decide (expires < now) || decide (date > now + olderThan))

/-- The per-entry deletion decision §6 of the spec describes: delete when
`expires_at` has passed or `response_date` is older than `older_than`
relative to now. -/
def purgeDeletesSpec (dc : DateCodec) (now olderThan : Nat) (r : Response) : Option Bool :=
  match response_date dc r with
  | none => none
  | some date =>
    match response_expires dc r with
    | none => none
    | some expires =>
      some (decide (expires < now) || decide (date + olderThan < now))

/-! ### `lru_cache.LRUCache` -/
/-- The `while self.bytesize() > self._max_bytesize` loop of
`LRUCache.trim`: `sz` is the serialized size of the whole map
(`len(pickle.dumps(self._data))`), the list is the `OrderedDict` in recency
order (head = least recently used), `count` the evictions so far.  `none`
models the uncaught `IndexError` from `sorted_keys.pop(0)` on an exhausted
key list. -/
def LRUCache.trimGo {K V : Type} (sz : List (K × V) → Nat) (maxB : Nat) :
    List (K × V) → Nat → Option (List (K × V) × Nat)
  | data, count =>
    if sz data ≤ maxB then some (data, count)
    else
      match data with
      | [] => none
      | _ :: rest => LRUCache.trimGo sz maxB rest (count + 1)

/-- Model of `LRUCache.trim()`: evict least-recently-used entries while the
serialized size exceeds the budget; returns the surviving map and the
eviction count, or `none` for the `IndexError`. -/
def LRUCache.trim {K V : Type} (sz : List (K × V) → Nat) (maxB : Nat)
    (data : List (K × V)) : Option (List (K × V) × Nat) :=
  LRUCache.trimGo sz maxB data 0

/-- Model of `LRUCache.save()`: no-op without a path or without changes; otherwise
`trim()` then dump.  Result: `none` models the `IndexError` escaping from
`trim`; `some none` a return without writing; `some (some d)` a dump of the
trimmed map `d`. -/
def LRUCache.save {K V : Type} (sz : List (K × V) → Nat) (maxB : Nat)
    (hasPath didChange : Bool) (data : List (K × V)) :
    Option (Option (List (K × V))) :=
  if !hasPath then some none
  else if !didChange then some none
  else
    match LRUCache.trim sz maxB data with
    | none => none
    | some (d', _) => some (some d')

/-! ### Claim C4: codec round-trip -/
/-- A response whose body is a single `\n` byte: `splitlines`/`join` drops
it. -/
def c4Resp : Response := ⟨200, "OK", [], [10]⟩

/-- The round-trip example from the repository's own test. -/
def c4WResp : Response :=
  ⟨200, "OK", [("Content-Type", "text/plain")], asciiBytes "Hello, World!"⟩

/-! ### Claim C7: purge_cache deletion criterion -/
/-- An entry dated far in the past (`Date: 100`) that has not expired
(`Expires: 2000000`), examined at `now = 1000000` with `older_than = 90`. -/
def c7Entry : Response := ⟨200, "OK", [("Date", "100"), ("Expires", "2000000")], []⟩

/-- Serialized-size stand-in for `pickle.dumps` in witnesses: 5 bytes of
framing plus 10 per entry. -/
def szW : List (Nat × Nat) → Nat := fun l => 5 + 10 * l.length

/-! ### Claims C1, C2, C6: error handling of `Session.get` / `_request` -/
/-- A persisted success entry (status 200), stale at `now = 100`
(`Expires: 20`). -/
def cached200 : Response := ⟨200, "OK", [("Date", "10"), ("Expires", "20")], asciiBytes "hello"⟩

/-- A persisted error entry (status 500), stale at `now = 100`. -/
def cached500 : Response :=
  ⟨500, "Server Error", [("Date", "10"), ("Expires", "20")], asciiBytes "x"⟩

/-- A 429 Too Many Requests network response. -/
def resp429 : Response := ⟨429, "Too Many Requests", [("Date", "100")], []⟩

def c1Args : GetArgs :=
  ⟨decCodec, false, 0, 0, response_to_bytes cached200, 100, NetResult.resp resp429, true, 0⟩

def c1wArgs : GetArgs :=
  ⟨decCodec, false, 0, 0, none, 100, NetResult.resp resp429, true, 0⟩

def c2Args : GetArgs :=
  ⟨decCodec, false, 0, 0, response_to_bytes cached200, 100, NetResult.transportErr, true, 0⟩

/-- The bytes of the stale success entry, for witness bookkeeping. -/
def cached200Bytes : List Nat := (response_to_bytes cached200).getD []

/-- A 500 network response used in the C2 witness. -/
def c2wResp : Response := ⟨500, "Server Error", [("Date", "100")], []⟩

def c2wArgs : GetArgs :=
  ⟨decCodec, false, 0, 0, response_to_bytes cached200, 100, NetResult.resp c2wResp, true, 0⟩

def c6Args : GetArgs :=
  ⟨decCodec, true, 0, 0, response_to_bytes cached500, 100, NetResult.transportErr, true, 0⟩

def c6wArgs : GetArgs :=
  ⟨decCodec, true, 0, 0, none, 100, NetResult.transportErr, true, 0⟩

/-- The network response of the C3 counterexample (`Date: 50`). -/
def c3NetResp : Response := ⟨200, "OK", [("Date", "50")], asciiBytes "body"⟩

def c3Args : GetArgs :=
  ⟨decCodec, false, 0, 0, none, 100, NetResult.resp c3NetResp, true, 0⟩

/-- The response-with-stamp of the C3 witness. -/
def c3R' : Response := ⟨200, "OK", [("Date", "50"), ("Expires", "50")], asciiBytes "body"⟩

/-- The network response of the C5 witness (`Date: 50`). -/
def c5NetResp : Response := ⟨200, "OK", [("Date", "50")], asciiBytes "body"⟩

/-- First fetch with `ttl = 60`. -/
def c5Args : GetArgs :=
  ⟨decCodec, false, 0, 0, none, 100, NetResult.resp c5NetResp, true, 60⟩

/-- The entry as persisted by the C5 witness fetch. -/
def c5R' : Response := ⟨200, "OK", [("Date", "50"), ("Expires", "110")], asciiBytes "body"⟩

/-! ## Theorems -/

theorem natToDecAux_congr :
    ∀ f₁ : Nat, ∀ f₂ n : Nat, n ≤ f₁ → n ≤ f₂ → natToDecAux f₁ n = natToDecAux f₂ n := by
  intro f₁
  induction f₁ with
  | zero =>
    intro f₂ n h1 _
    have hn : n = 0 := Nat.le_zero.mp h1
    subst hn
    cases f₂ with
    | zero => rfl
    | succ m => rw [natToDecAux, natToDecAux]; simp
  | succ f ih =>
    intro f₂ n h1 h2
    cases f₂ with
    | zero =>
      have hn : n = 0 := Nat.le_zero.mp h2
      subst hn
      rw [natToDecAux, natToDecAux]
      simp
    | succ m =>
      rw [natToDecAux, natToDecAux]
      by_cases h : n < 10
      · simp [h]
      · simp only [h, if_false]
        have hdlt : n / 10 < n := Nat.div_lt_self (by omega) (by omega)
        have hd1 : n / 10 ≤ f := by omega
        have hd2 : n / 10 ≤ m := by omega
        rw [ih m (n / 10) hd1 hd2]

/-- The defining recurrence of `natToDec`. -/
theorem natToDec_eq (n : Nat) :
    natToDec n = if n < 10 then [digitChar n]
      else natToDec (n / 10) ++ [digitChar (n % 10)] := by
  unfold natToDec
  cases n with
  | zero => rw [natToDecAux]; simp
  | succ m =>
    rw [natToDecAux]
    by_cases h : m + 1 < 10
    · simp [h]
    · simp only [h, if_false]
      have hdlt : (m + 1) / 10 < m + 1 := Nat.div_lt_self (by omega) (by omega)
      have hd : (m + 1) / 10 ≤ m := by omega
      rw [natToDecAux_congr m ((m + 1) / 10) ((m + 1) / 10) hd (le_refl _)]

theorem digitChar_toNat (m : Nat) (h : m < 10) : (digitChar m).toNat = 48 + m := by
  interval_cases m <;> decide

theorem isDecDigit_digitChar (m : Nat) (h : m < 10) : isDecDigit (digitChar m) = true := by
  interval_cases m <;> decide

theorem natToDec_all_digits (n : Nat) : (natToDec n).all isDecDigit = true := by
  induction n using Nat.strong_induction_on with
  | _ n ih =>
    rw [natToDec_eq]
    by_cases h : n < 10
    · simp [h, isDecDigit_digitChar n h]
    · simp only [h, if_false, List.all_append]
      rw [ih (n / 10) (Nat.div_lt_self (by omega) (by omega))]
      simp [isDecDigit_digitChar (n % 10) (Nat.mod_lt n (by omega))]

theorem natToDec_ne_nil (n : Nat) : natToDec n ≠ [] := by
  rw [natToDec_eq]
  by_cases h : n < 10
  · simp [h]
  · simp [h]

theorem foldl_dec_natToDec (a n : Nat) :
    (natToDec n).foldl (fun a c => a * 10 + (c.toNat - 48)) a =
      a * 10 ^ (natToDec n).length + n := by
  induction n using Nat.strong_induction_on generalizing a with
  | _ n ih =>
    rw [natToDec_eq]
    by_cases h : n < 10
    · simp only [h, if_true, List.foldl, List.length_cons, List.length_nil,
        digitChar_toNat n h, pow_one]
      omega
    · simp only [h, if_false, List.foldl_append, List.foldl, List.length_append,
        List.length_cons, List.length_nil]
      rw [ih (n / 10) (Nat.div_lt_self (by omega) (by omega)) a]
      rw [digitChar_toNat (n % 10) (Nat.mod_lt n (by omega))]
      have h1 : 48 + n % 10 - 48 = n % 10 := by omega
      rw [h1, pow_succ]
      have h2 : n / 10 * 10 + n % 10 = n := by omega
      calc (a * 10 ^ (natToDec (n / 10)).length + n / 10) * 10 + n % 10
          = a * (10 ^ (natToDec (n / 10)).length * 10) + (n / 10 * 10 + n % 10) := by ring
        _ = a * (10 ^ (natToDec (n / 10)).length * 10) + n := by rw [h2]

/-- Round-trip fact `int(str(n)) == n`: the decimal printer and parser round-trip. -/
theorem pyIntChars_natToDec (n : Nat) : pyIntChars (natToDec n) = some n := by
  unfold pyIntChars
  have h1 := natToDec_ne_nil n
  have h2 := natToDec_all_digits n
  simp only [h1, h2, ne_eq, not_false_iff, true_and, and_true, if_pos]
  have := foldl_dec_natToDec 0 n
  simp only [Nat.zero_mul, Nat.zero_add] at this
  simp [this]

theorem isPrefixOf_append_of_le (sep l v : List Char) (h : sep.length ≤ l.length) :
    List.isPrefixOf sep (l ++ v) = List.isPrefixOf sep l := by
  by_cases h1 : List.IsPrefix sep l
  · have h2 : List.IsPrefix sep (l ++ v) := h1.trans (List.prefix_append l v)
    rw [List.isPrefixOf_iff_prefix.mpr h1, List.isPrefixOf_iff_prefix.mpr h2]
  · have h2 : ¬ List.IsPrefix sep (l ++ v) := fun hc =>
      h1 (List.prefix_of_prefix_length_le hc (List.prefix_append l v) h)
    have e1 : List.isPrefixOf sep l = false := by
      cases hb : List.isPrefixOf sep l
      · rfl
      · exact absurd (List.isPrefixOf_iff_prefix.mp hb) h1
    have e2 : List.isPrefixOf sep (l ++ v) = false := by
      cases hb : List.isPrefixOf sep (l ++ v)
      · rfl
      · exact absurd (List.isPrefixOf_iff_prefix.mp hb) h2
    rw [e1, e2]

theorem splitFirst_nil (sep : List Char) : splitFirst sep [] = none := rfl

theorem splitFirst_cons (sep : List Char) (c : Char) (rest : List Char) :
    splitFirst sep (c :: rest) =
      if sep.isPrefixOf (c :: rest) then some ([], (c :: rest).drop sep.length)
      else (splitFirst sep rest).map (fun p => (c :: p.1, p.2)) := rfl

/-- If `sep` first occurs in `k ++ sep` at the very end (i.e. the "name" `k`
contains no earlier occurrence), then splitting `k ++ sep ++ v` yields
`(k, v)` for every tail `v`. -/
theorem splitFirst_boundary (sep v : List Char) :
    ∀ k : List Char, splitFirst sep (k ++ sep) = some (k, []) →
      splitFirst sep (k ++ sep ++ v) = some (k, v) := by
  intro k
  induction k with
  | nil =>
    intro h
    rcases hsep : sep with _ | ⟨c, cs⟩
    · subst hsep; simp [splitFirst_nil] at h
    · subst hsep
      simp only [List.nil_append] at h ⊢
      rw [List.cons_append, splitFirst_cons]
      have hpre : List.isPrefixOf (c :: cs) (c :: (cs ++ v)) = true := by
        rw [List.isPrefixOf_iff_prefix]
        rw [← List.cons_append]
        exact List.prefix_append (c :: cs) v
      simp only [hpre, if_true, List.length_cons, List.drop_succ_cons]
      rw [List.drop_left]
  | cons a as ih =>
    intro h
    rw [List.cons_append, splitFirst_cons] at h
    rw [List.cons_append, List.cons_append, splitFirst_cons]
    by_cases hp : List.isPrefixOf sep (a :: (as ++ sep)) = true
    · simp only [hp, if_true] at h
      simp at h
    · have hp' : List.isPrefixOf sep (a :: (as ++ sep)) = false := by
        simp only [Bool.not_eq_true] at hp; exact hp
      have hp2 : List.isPrefixOf sep (a :: (as ++ sep ++ v)) = false := by
        have he : a :: (as ++ sep ++ v) = (a :: (as ++ sep)) ++ v := by simp
        rw [he, isPrefixOf_append_of_le sep (a :: (as ++ sep)) v
          (by simp only [List.length_cons, List.length_append]; omega), hp']
      simp only [hp', if_false, Bool.false_eq_true] at h
      simp only [hp2, if_false, Bool.false_eq_true]
      rcases hrec : splitFirst sep (as ++ sep) with _ | ⟨l, r⟩
      · rw [hrec] at h; simp at h
      · rw [hrec] at h
        simp only [Option.map_some', Option.some.injEq, Prod.mk.injEq,
          List.cons.injEq, true_and] at h
        obtain ⟨h2, h3⟩ := h
        subst h2; subst h3
        rw [ih hrec]
        simp

theorem splitFirst_single (c : Char) :
    ∀ k : List Char, c ∉ k → splitFirst [c] (k ++ [c]) = some (k, []) := by
  intro k
  induction k with
  | nil =>
    intro _
    rw [List.nil_append, splitFirst_cons]
    simp [List.isPrefixOf]
  | cons a as ih =>
    intro h
    have hca : ¬ (c = a) := fun hc => h (hc ▸ List.mem_cons_self a as)
    have has : c ∉ as := fun hc => h (List.mem_cons_of_mem a hc)
    rw [List.cons_append, splitFirst_cons]
    have hpre : List.isPrefixOf [c] (a :: (as ++ [c])) = false := by
      simp [List.isPrefixOf, beq_iff_eq, hca]
    simp only [hpre, if_false, Bool.false_eq_true, ih has, Option.map_some']

/-- Splitting on a single character that does not occur in `k`. -/
theorem splitFirst_single_boundary (c : Char) (k v : List Char) (h : c ∉ k) :
    splitFirst [c] (k ++ c :: v) = some (k, v) := by
  have := splitFirst_boundary [c] v k (splitFirst_single c k h)
  simpa using this

theorem asciiDecode_asciiBytes (s : String) (h : isAsciiStr s = true) :
    asciiDecode (asciiBytes s) = some s := by
  unfold asciiDecode asciiBytes
  unfold isAsciiStr at h
  have hall : (s.data.map Char.toNat).all (fun b => b < 128) = true := by
    rw [List.all_eq_true] at h ⊢
    intro b hb
    obtain ⟨c, hc, rfl⟩ := List.mem_map.mp hb
    exact h c hc
  rw [if_pos hall]
  have : (s.data.map Char.toNat).map Char.ofNat = s.data := by
    rw [List.map_map]
    have : (Char.ofNat ∘ Char.toNat) = id := by
      funext c; simp [Function.comp, Char.ofNat_toNat]
    rw [this, List.map_id]
  rw [this]

theorem pySplitlines_nil : pySplitlines [] = [] := rfl

theorem pySplitlines_lf (rest : List Nat) :
    pySplitlines (10 :: rest) = [] :: pySplitlines rest := by
  rw [pySplitlines.eq_def]
  simp

theorem pySplitlines_other (b : Nat) (rest : List Nat) (h10 : b ≠ 10) (h13 : b ≠ 13) :
    pySplitlines (b :: rest) =
      match pySplitlines rest with
      | [] => [[b]]
      | line :: lines => (b :: line) :: lines := by
  rw [pySplitlines.eq_def]
  simp only [if_neg h10, if_neg h13]

theorem pySplitlines_ne_nil (l : List Nat) (h : l ≠ []) : pySplitlines l ≠ [] := by
  match l with
  | [] => exact absurd rfl h
  | b :: rest =>
    rw [pySplitlines.eq_def]
    by_cases h10 : b = 10
    · simp [h10]
    · by_cases h13 : b = 13
      · simp only [if_neg h10, if_pos h13]
        split <;> simp
      · simp only [if_neg h10, if_neg h13]
        split <;> simp

theorem joinNL_single (l : List Nat) : joinNL [l] = l := rfl

theorem joinNL_cons2 (l l2 : List Nat) (ls : List (List Nat)) :
    joinNL (l :: l2 :: ls) = l ++ 10 :: joinNL (l2 :: ls) := rfl

theorem getLast?_cons_of_ne (x : Nat) (l : List Nat) (h : l ≠ []) :
    (x :: l).getLast? = l.getLast? := by
  match l with
  | [] => exact absurd rfl h
  | y :: ys => rw [List.getLast?_cons_cons]

/-- Lines without terminators, followed by `\n`, peel off as one line. -/
theorem pySplitlines_line_append (a b' : List Nat)
    (h : ∀ x ∈ a, x ≠ 10 ∧ x ≠ 13) :
    pySplitlines (a ++ 10 :: b') = a :: pySplitlines b' := by
  induction a with
  | nil => simpa using pySplitlines_lf b'
  | cons c cs ih =>
    have hc := h c (List.mem_cons_self c cs)
    have hcs : ∀ x ∈ cs, x ≠ 10 ∧ x ≠ 13 := fun x hx => h x (List.mem_cons_of_mem c hx)
    rw [List.cons_append, pySplitlines_other c (cs ++ 10 :: b') hc.1 hc.2, ih hcs]

/-- Joining the split lines of a body that contains no `\r` and does not end
with `\n` reproduces the body exactly. -/
theorem joinNL_pySplitlines (body : List Nat)
    (hcr : 13 ∉ body) (hlast : body.getLast? ≠ some 10) :
    joinNL (pySplitlines body) = body := by
  induction body with
  | nil => rfl
  | cons b rest ih =>
    have hcr' : 13 ∉ rest := fun hx => hcr (List.mem_cons_of_mem b hx)
    by_cases h10 : b = 10
    · subst h10
      have hrest : rest ≠ [] := by
        intro hr
        subst hr
        simp at hlast
      have hlast' : rest.getLast? ≠ some 10 := by
        rwa [getLast?_cons_of_ne 10 rest hrest] at hlast
      rw [pySplitlines_lf]
      have hne := pySplitlines_ne_nil rest hrest
      rcases hm : pySplitlines rest with _ | ⟨line, lines⟩
      · exact absurd hm hne
      · have hj := ih hcr' hlast'
        rw [hm] at hj
        show [] ++ 10 :: joinNL (line :: lines) = 10 :: rest
        rw [List.nil_append, hj]
    · have h13 : b ≠ 13 := fun hb => hcr (hb ▸ List.mem_cons_self b rest)
      rw [pySplitlines_other b rest h10 h13]
      rcases hm : pySplitlines rest with _ | ⟨line, lines⟩
      · have hrest : rest = [] := by
          by_contra hc
          exact pySplitlines_ne_nil rest hc hm
        subst hrest
        show joinNL [[b]] = [b]
        rw [joinNL_single]
      · have hrest : rest ≠ [] := by
          intro h0
          rw [h0, pySplitlines_nil] at hm
          exact List.noConfusion hm
        have hlast' : rest.getLast? ≠ some 10 := by
          rwa [getLast?_cons_of_ne b rest hrest] at hlast
        have hj := ih hcr' hlast'
        rw [hm] at hj
        show joinNL ((b :: line) :: lines) = b :: rest
        cases lines with
        | nil =>
          rw [joinNL_single] at hj
          rw [joinNL_single, hj]
        | cons l2 ls2 =>
          rw [joinNL_cons2] at hj
          rw [joinNL_cons2, List.cons_append, hj]

/-! ### Codec round-trip lemmas -/
theorem string_mk_data (s : String) : String.mk s.data = s := rfl

theorem asciiBytes_append (s t : String) :
    asciiBytes (s ++ t) = asciiBytes s ++ asciiBytes t := by
  unfold asciiBytes
  rw [String.data_append, List.map_append]

theorem isAsciiStr_append (s t : String) :
    isAsciiStr (s ++ t) = (isAsciiStr s && isAsciiStr t) := by
  unfold isAsciiStr
  rw [String.data_append, List.all_append]

theorem noCRLF_append (s t : String) :
    noCRLF (s ++ t) = (noCRLF s && noCRLF t) := by
  unfold noCRLF
  rw [String.data_append, List.all_append]

theorem asciiBytes_no_lf_cr (s : String) (h : noCRLF s = true) :
    ∀ x ∈ asciiBytes s, x ≠ 10 ∧ x ≠ 13 := by
  intro x hx
  obtain ⟨c, hc, rfl⟩ := List.mem_map.mp hx
  unfold noCRLF at h
  rw [List.all_eq_true] at h
  have := h c hc
  simp only [Bool.and_eq_true, bne_iff_ne, ne_eq] at this
  constructor
  · intro h10
    apply this.1
    have : c = '\n' := by
      have hv := Char.ofNat_toNat c
      rw [h10] at hv
      exact hv.symm
    exact this
  · intro h13
    apply this.2
    have : c = '\r' := by
      have hv := Char.ofNat_toNat c
      rw [h13] at hv
      exact hv.symm
    exact this

theorem natToDec_ascii (n : Nat) : (natToDec n).all (fun c => c.toNat < 128) = true := by
  rw [List.all_eq_true]
  intro c hc
  have := natToDec_all_digits n
  rw [List.all_eq_true] at this
  have hd := this c hc
  unfold isDecDigit at hd
  simp only [Bool.and_eq_true, decide_eq_true_eq] at hd
  simp only [decide_eq_true_eq]
  omega

theorem natToDec_no_space (n : Nat) : ' ' ∉ natToDec n := by
  intro hmem
  have := natToDec_all_digits n
  rw [List.all_eq_true] at this
  have hd := this ' ' hmem
  simp [isDecDigit] at hd

theorem asciiBytes_nl : asciiBytes "\n" = [10] := rfl

theorem asciiBytes_nil : asciiBytes "" = [] := rfl

/-- Splitting the encoded header block: each `k: v` line peels off in order,
then the blank line, then the split of the remaining tail. -/
theorem pySplitlines_headerBlock (hs : List (String × String)) (tail : List Nat)
    (h : ∀ p ∈ hs, noCRLF p.1 = true ∧ noCRLF p.2 = true) :
    pySplitlines (asciiBytes (headerLinesStr hs) ++ 10 :: tail) =
      hs.map (fun p => asciiBytes (p.1 ++ ": " ++ p.2)) ++ [] :: pySplitlines tail := by
  induction hs with
  | nil =>
    rw [show headerLinesStr [] = "" from rfl, asciiBytes_nil, List.nil_append,
      pySplitlines_lf, List.map_nil, List.nil_append]
  | cons p ps ih =>
    have hp := h p (List.mem_cons_self p ps)
    have hps : ∀ q ∈ ps, noCRLF q.1 = true ∧ noCRLF q.2 = true :=
      fun q hq => h q (List.mem_cons_of_mem p hq)
    rw [show headerLinesStr (p :: ps) = p.1 ++ ": " ++ p.2 ++ "\n" ++ headerLinesStr ps
      from rfl]
    rw [asciiBytes_append, asciiBytes_append, asciiBytes_nl]
    have hline : noCRLF (p.1 ++ ": " ++ p.2) = true := by
      rw [noCRLF_append, noCRLF_append]
      rw [hp.1, hp.2, show noCRLF ": " = true from rfl]
      rfl
    have hassoc :
        asciiBytes (p.1 ++ ": " ++ p.2) ++ [10] ++ asciiBytes (headerLinesStr ps) ++
          10 :: tail =
        asciiBytes (p.1 ++ ": " ++ p.2) ++
          10 :: (asciiBytes (headerLinesStr ps) ++ 10 :: tail) := by
      simp
    rw [hassoc,
      pySplitlines_line_append _ _ (asciiBytes_no_lf_cr _ hline), ih hps,
      List.map_cons, List.cons_append]

theorem parseHeaderLines_blank (rest : List (List Nat)) (acc : List (String × String)) :
    parseHeaderLines ([] :: rest) acc = some (acc, rest) := rfl

theorem parseHeaderLines_cons (line : List Nat) (hne : line ≠ [])
    (rest : List (List Nat)) (acc : List (String × String)) :
    parseHeaderLines (line :: rest) acc =
      match asciiDecode line with
      | none => none
      | some s =>
        match splitFirst [':', ' '] s.data with
        | none => none
        | some (k, v) => parseHeaderLines rest (ciSet acc (String.mk k) (String.mk v)) := by
  match line, hne with
  | x :: xs, _ => rfl

/-- Parsing the encoded header lines rebuilds the headers by successive
`CaseInsensitiveDict` insertions and stops at the blank line. -/
theorem parseHeaderLines_block (rest : List (List Nat)) :
    ∀ (hs acc : List (String × String)),
    (∀ p ∈ hs, isAsciiStr p.1 = true ∧ isAsciiStr p.2 = true ∧ nameOkB p.1 = true) →
    parseHeaderLines (hs.map (fun p => asciiBytes (p.1 ++ ": " ++ p.2)) ++ [] :: rest) acc =
      some (hs.foldl (fun a p => ciSet a p.1 p.2) acc, rest) := by
  intro hs
  induction hs with
  | nil =>
    intro acc _
    rw [List.map_nil, List.nil_append, parseHeaderLines_blank, List.foldl_nil]
  | cons p ps ih =>
    intro acc h
    have hp := h p (List.mem_cons_self p ps)
    have hps : ∀ q ∈ ps, isAsciiStr q.1 = true ∧ isAsciiStr q.2 = true ∧ nameOkB q.1 = true :=
      fun q hq => h q (List.mem_cons_of_mem p hq)
    rw [List.map_cons, List.cons_append]
    have hnz : asciiBytes (p.1 ++ ": " ++ p.2) ≠ [] := by
      unfold asciiBytes
      rw [String.data_append, String.data_append]
      simp [show (": " : String).data = [':', ' '] from rfl]
    rw [parseHeaderLines_cons _ hnz]
    have hascii : isAsciiStr (p.1 ++ ": " ++ p.2) = true := by
      rw [isAsciiStr_append, isAsciiStr_append, hp.1, hp.2.1,
        show isAsciiStr ": " = true from rfl]
      rfl
    rw [asciiDecode_asciiBytes _ hascii]
    simp only []
    have hdata : (p.1 ++ ": " ++ p.2).data = p.1.data ++ [':', ' '] ++ p.2.data := by
      rw [String.data_append, String.data_append,
        show (": " : String).data = [':', ' '] from rfl]
    have hname : splitFirst [':', ' '] (p.1.data ++ [':', ' ']) = some (p.1.data, []) := by
      have := hp.2.2
      unfold nameOkB at this
      exact eq_of_beq this
    have hsplit : splitFirst [':', ' '] (p.1 ++ ": " ++ p.2).data = some (p.1.data, p.2.data) := by
      rw [hdata]
      exact splitFirst_boundary [':', ' '] p.2.data p.1.data hname
    rw [hsplit]
    simp only [string_mk_data]
    rw [ih (ciSet acc p.1 p.2) hps, List.foldl_cons]

theorem ciSet_append_fresh (a : List (String × String)) (k v : String)
    (h : a.any (fun p => ciKeyEq p.1 k) = false) : ciSet a k v = a ++ [(k, v)] := by
  unfold ciSet
  rw [h]
  rfl

/-- Successive case-insensitive insertions of pairwise-distinct fresh names
just append them in order. -/
theorem foldl_ciSet_reconstruct :
    ∀ (hs a : List (String × String)),
    (hs.map (fun p => lowerStr p.1)).Nodup →
    (∀ p ∈ hs, ∀ q ∈ a, lowerStr q.1 ≠ lowerStr p.1) →
    hs.foldl (fun acc p => ciSet acc p.1 p.2) a = a ++ hs := by
  intro hs
  induction hs with
  | nil => intro a _ _; simp
  | cons p ps ih =>
    intro a hnd hfresh
    rw [List.foldl_cons]
    have hany : a.any (fun q => ciKeyEq q.1 p.1) = false := by
      rw [Bool.eq_false_iff]
      intro hc
      rw [List.any_eq_true] at hc
      obtain ⟨q, hq, hqe⟩ := hc
      unfold ciKeyEq at hqe
      exact hfresh p (List.mem_cons_self p ps) q hq (eq_of_beq hqe)
    rw [ciSet_append_fresh a p.1 p.2 hany]
    rw [List.map_cons, List.nodup_cons] at hnd
    have hfresh' : ∀ x ∈ ps, ∀ q ∈ a ++ [(p.1, p.2)], lowerStr q.1 ≠ lowerStr x.1 := by
      intro x hx q hq
      rcases List.mem_append.mp hq with hqa | hqp
      · exact hfresh x (List.mem_cons_of_mem p hx) q hqa
      · have : q = (p.1, p.2) := by simpa using hqp
        subst this
        intro he
        exact hnd.1 (List.mem_map.mpr ⟨x, hx, he.symm⟩)
    rw [ih (a ++ [(p.1, p.2)]) hnd.2 hfresh']
    simp

theorem isAsciiStr_headerLinesStr (hs : List (String × String))
    (h : ∀ p ∈ hs, isAsciiStr p.1 = true ∧ isAsciiStr p.2 = true) :
    isAsciiStr (headerLinesStr hs) = true := by
  induction hs with
  | nil => rfl
  | cons p ps ih =>
    have hp := h p (List.mem_cons_self p ps)
    have h1 : isAsciiStr ": " = true := by decide
    have h2 : isAsciiStr "\n" = true := by decide
    have he : headerLinesStr (p :: ps) = p.1 ++ ": " ++ p.2 ++ "\n" ++ headerLinesStr ps := rfl
    rw [he]
    simp only [isAsciiStr_append, hp.1, hp.2, h1, h2,
      ih (fun q hq => h q (List.mem_cons_of_mem p hq)), Bool.and_self]

theorem noCRLF_mk_natToDec (n : Nat) : noCRLF (String.mk (natToDec n)) = true := by
  unfold noCRLF
  rw [List.all_eq_true]
  intro c hc
  have := natToDec_all_digits n
  rw [List.all_eq_true] at this
  have hd := this c hc
  unfold isDecDigit at hd
  simp only [Bool.and_eq_true, decide_eq_true_eq] at hd
  simp only [Bool.and_eq_true, bne_iff_ne, ne_eq]
  constructor
  · intro he; subst he; simp at hd
  · intro he; subst he; simp at hd

theorem isAsciiStr_mk_natToDec (n : Nat) : isAsciiStr (String.mk (natToDec n)) = true := by
  unfold isAsciiStr
  exact natToDec_ascii n

/-- Round-trip `bytes_to_response(response_to_bytes(r)) == r` for every well-formed
response: the codec round-trips exactly, including header order and body
bytes. -/
theorem responseBytes_roundtrip (r : Response) (h : WFresp r) :
    (response_to_bytes r).bind bytes_to_response = some r := by
  obtain ⟨hra, hrc, hhs, hnd, hb13, hb10⟩ := h
  have hslascii : isAsciiStr (statusLineStr r) = true := by
    unfold statusLineStr
    have h1 : isAsciiStr "HTTP/1.1 " = true := by decide
    have h2 : isAsciiStr " " = true := by decide
    simp only [isAsciiStr_append, hra, isAsciiStr_mk_natToDec, h1, h2, Bool.and_self]
  have hasc : isAsciiStr (headerText r) = true := by
    unfold headerText
    have h2 : isAsciiStr "\n" = true := by decide
    simp only [isAsciiStr_append, hslascii, h2,
      isAsciiStr_headerLinesStr r.headers (fun p hp => ⟨(hhs p hp).1, (hhs p hp).2.2.2.1⟩),
      Bool.and_self]
  unfold response_to_bytes
  rw [if_pos hasc, Option.some_bind]
  have hbytes : asciiBytes (headerText r) ++ r.content =
      asciiBytes (statusLineStr r) ++
        10 :: (asciiBytes (headerLinesStr r.headers) ++ 10 :: r.content) := by
    unfold headerText
    rw [asciiBytes_append, asciiBytes_append, asciiBytes_append, asciiBytes_nl]
    simp
  have hslcrlf : noCRLF (statusLineStr r) = true := by
    unfold statusLineStr
    have h1 : noCRLF "HTTP/1.1 " = true := by decide
    have h2 : noCRLF " " = true := by decide
    simp only [noCRLF_append, hrc, noCRLF_mk_natToDec, h1, h2, Bool.and_self]
  have hsplitAll : pySplitlines (asciiBytes (headerText r) ++ r.content) =
      asciiBytes (statusLineStr r) ::
        (r.headers.map (fun p => asciiBytes (p.1 ++ ": " ++ p.2)) ++
          [] :: pySplitlines r.content) := by
    rw [hbytes,
      pySplitlines_line_append _ _ (asciiBytes_no_lf_cr _ hslcrlf),
      pySplitlines_headerBlock r.headers r.content
        (fun p hp => ⟨(hhs p hp).2.1, (hhs p hp).2.2.2.2⟩)]
  unfold bytes_to_response
  rw [hsplitAll]
  simp only []
  rw [asciiDecode_asciiBytes _ hslascii]
  simp only []
  have hs0 : (statusLineStr r).data =
      "HTTP/1.1".data ++ ' ' :: (natToDec r.status_code ++ ' ' :: r.reason.data) := by
    unfold statusLineStr
    rw [String.data_append, String.data_append, String.data_append]
    rw [show ("HTTP/1.1 " : String).data = "HTTP/1.1".data ++ [' '] from rfl,
      show (" " : String).data = [' '] from rfl,
      show (String.mk (natToDec r.status_code)).data = natToDec r.status_code from rfl]
    simp
  rw [hs0, splitFirst_single_boundary ' ' "HTTP/1.1".data _ (by decide)]
  simp only []
  rw [splitFirst_single_boundary ' ' (natToDec r.status_code) r.reason.data
    (natToDec_no_space r.status_code)]
  simp only []
  rw [pyIntChars_natToDec]
  simp only []
  rw [parseHeaderLines_block (pySplitlines r.content) r.headers []
    (fun p hp => ⟨(hhs p hp).1, (hhs p hp).2.2.2.1, (hhs p hp).2.2.1⟩)]
  simp only []
  rw [foldl_ciSet_reconstruct r.headers [] hnd (by intro p _ q hq; simp at hq)]
  rw [joinNL_pySplitlines r.content hb13 hb10, List.nil_append, string_mk_data]

/-! ### `CaseInsensitiveDict` lookup lemmas -/
theorem ciKeyEq_self (k : String) : ciKeyEq k k = true := by
  unfold ciKeyEq
  exact beq_self_eq_true _

theorem find?_map_ciSet_self (k v : String) :
    ∀ hs : List (String × String), hs.any (fun p => ciKeyEq p.1 k) = true →
    (hs.map (fun p => if ciKeyEq p.1 k then (k, v) else p)).find?
        (fun p => ciKeyEq p.1 k) = some (k, v) := by
  intro hs
  induction hs with
  | nil => intro h; simp at h
  | cons p ps ih =>
    intro hany
    rw [List.map_cons]
    by_cases hp : ciKeyEq p.1 k = true
    · rw [if_pos hp]
      exact List.find?_cons_of_pos _ (ciKeyEq_self k)
    · rw [if_neg hp]
      rw [List.find?_cons_of_neg _ (by simpa using hp)]
      apply ih
      rcases List.any_eq_true.mp hany with ⟨q, hq, hqe⟩
      rcases List.mem_cons.mp hq with h1 | h1
      · exact absurd (h1 ▸ hqe) hp
      · exact List.any_eq_true.mpr ⟨q, h1, hqe⟩

theorem ciGet_ciSet_same (hs : List (String × String)) (k v : String) :
    ciGet (ciSet hs k v) k = some v := by
  unfold ciSet ciGet
  by_cases hany : hs.any (fun p => ciKeyEq p.1 k) = true
  · rw [if_pos hany, find?_map_ciSet_self k v hs hany]
    rfl
  · rw [if_neg hany, List.find?_append]
    have hnone : hs.find? (fun p => ciKeyEq p.1 k) = none := by
      rw [List.find?_eq_none]
      intro p hp hc
      exact hany (List.any_eq_true.mpr ⟨p, hp, hc⟩)
    rw [hnone]
    simp [ciKeyEq_self]

theorem find?_map_ciSet_other (k v k' : String) (h : lowerStr k' ≠ lowerStr k) :
    ∀ hs : List (String × String),
    (hs.map (fun p => if ciKeyEq p.1 k then (k, v) else p)).find?
        (fun p => ciKeyEq p.1 k') = hs.find? (fun p => ciKeyEq p.1 k') := by
  intro hs
  induction hs with
  | nil => rfl
  | cons p ps ih =>
    rw [List.map_cons]
    by_cases hp : ciKeyEq p.1 k = true
    · rw [if_pos hp]
      have hk : ciKeyEq k k' = false := by
        unfold ciKeyEq
        simp only [beq_eq_false_iff_ne, ne_eq]
        intro he
        exact h he.symm
      have hpk : ciKeyEq p.1 k' = false := by
        unfold ciKeyEq at hp ⊢
        simp only [beq_eq_false_iff_ne, ne_eq]
        intro he
        exact h (he.symm.trans (eq_of_beq hp))
      rw [List.find?_cons_of_neg _ (by simp [hk]),
        List.find?_cons_of_neg _ (by simp [hpk]), ih]
    · rw [if_neg hp]
      by_cases hq : ciKeyEq p.1 k' = true
      · rw [List.find?_cons_of_pos (p := fun (q : String × String) => ciKeyEq q.1 k') _ hq,
          List.find?_cons_of_pos (p := fun (q : String × String) => ciKeyEq q.1 k') _ hq]
      · rw [List.find?_cons_of_neg _ (by simpa using hq),
          List.find?_cons_of_neg _ (by simpa using hq), ih]

theorem ciGet_ciSet_other (hs : List (String × String)) (k v k' : String)
    (h : lowerStr k' ≠ lowerStr k) :
    ciGet (ciSet hs k v) k' = ciGet hs k' := by
  unfold ciSet ciGet
  by_cases hany : hs.any (fun p => ciKeyEq p.1 k) = true
  · rw [if_pos hany, find?_map_ciSet_other k v k' h hs]
  · rw [if_neg hany, List.find?_append]
    have hk : ciKeyEq k k' = false := by
      unfold ciKeyEq
      simp only [beq_eq_false_iff_ne, ne_eq]
      intro he
      exact h he.symm
    rcases hf : hs.find? (fun p => ciKeyEq p.1 k') with _ | q
    · rw [hf]
      simp [hk]
    · rw [hf]
      simp

theorem decCodec_roundtrip (n : Nat) : decCodec.parse (decCodec.format n) = some n :=
  pyIntChars_natToDec n

/-! ### Path lemmas for `Session.get` -/
theorem get_nofile (a : GetArgs) (hfile : a.file = none) :
    Session.get a =
      if a.offline then getOfflinePhase a none else getNetworkPhase a none := by
  unfold Session.get
  rw [hfile]

theorem get_fresh_path (a : GetArgs) (bs : List Nat) (c : Response) (d e : Nat)
    (hfile : a.file = some bs) (hdec : bytes_to_response bs = some c)
    (hdate : response_date a.dc c = some d) (hexp : response_expires a.dc c = some e)
    (hfresh : a.now < e) :
    Session.get a = ⟨.ok c true, a.file, a.lastRequestAt, false⟩ := by
  unfold Session.get
  rw [hfile]
  simp only [hdec, hdate, hexp]
  rw [if_pos hfresh]

theorem get_stale_path (a : GetArgs) (bs : List Nat) (c : Response) (d e : Nat)
    (hfile : a.file = some bs) (hdec : bytes_to_response bs = some c)
    (hdate : response_date a.dc c = some d) (hexp : response_expires a.dc c = some e)
    (hstale : ¬ a.now < e) :
    Session.get a =
      if a.offline then getOfflinePhase a (some c) else getNetworkPhase a (some c) := by
  unfold Session.get
  rw [hfile]
  simp only [hdec, hdate, hexp]
  rw [if_neg hstale]

theorem offlinePhase_none (a : GetArgs) :
    getOfflinePhase a none = ⟨.offlineErr, a.file, a.lastRequestAt, false⟩ := rfl

theorem offlinePhase_truthy (a : GetArgs) (c : Response) (h : respTruthy c = true) :
    getOfflinePhase a (some c) = ⟨.ok c true, a.file, a.lastRequestAt, false⟩ := by
  unfold getOfflinePhase
  simp only []
  rw [if_pos h]

theorem offlinePhase_untruthy (a : GetArgs) (c : Response) (h : respTruthy c = false) :
    getOfflinePhase a (some c) = ⟨.offlineErr, a.file, a.lastRequestAt, false⟩ := by
  unfold getOfflinePhase
  simp only []
  rw [h]
  rfl

theorem networkPhase_transport (a : GetArgs) (c : Option Response)
    (hnet : a.net = NetResult.transportErr) :
    getNetworkPhase a c =
      ⟨.transportErr, a.file, max a.now (a.lastRequestAt + a.minTime), true⟩ := by
  unfold getNetworkPhase
  rw [hnet]

theorem networkPhase_httpError_cached (a : GetArgs) (c : Response) (r : Response)
    (hnet : a.net = NetResult.resp r) (hs : isErrorStatus r.status_code = true) :
    getNetworkPhase a (some c) =
      if a.stale_cache_on_error && respTruthy c then
        ⟨.ok c true, a.file, max a.now (a.lastRequestAt + a.minTime), true⟩
      else ⟨.httpErr r, a.file, max a.now (a.lastRequestAt + a.minTime), true⟩ := by
  unfold getNetworkPhase
  rw [hnet]
  simp only [hs, if_true]

theorem networkPhase_httpError_nocache (a : GetArgs) (r : Response)
    (hnet : a.net = NetResult.resp r) (hs : isErrorStatus r.status_code = true) :
    getNetworkPhase a none =
      ⟨.httpErr r, a.file, max a.now (a.lastRequestAt + a.minTime), true⟩ := by
  unfold getNetworkPhase
  rw [hnet]
  simp only [hs, if_true]

theorem networkPhase_success (a : GetArgs) (c : Option Response) (r : Response)
    (out : List Nat)
    (hnet : a.net = NetResult.resp r) (hs : isErrorStatus r.status_code = false)
    (hdate : response_date a.dc r = some d)
    (hout : response_to_bytes
        { r with headers := ciSet r.headers "Expires" (a.dc.format (d + a.ttl)) } = some out) :
    getNetworkPhase a c =
      ⟨.ok { r with headers := ciSet r.headers "Expires" (a.dc.format (d + a.ttl)) } false,
        some out, max a.now (a.lastRequestAt + a.minTime), true⟩ := by
  unfold getNetworkPhase
  rw [hnet]
  simp only [hs, Bool.false_eq_true, if_false, hdate, hout]

theorem networkPhase_networkCalled (a : GetArgs) (c : Option Response) :
    (getNetworkPhase a c).networkCalled = true := by
  unfold getNetworkPhase
  rcases a.net with r | _
  · by_cases hs : isErrorStatus r.status_code = true
    · simp only [hs, if_true]
      rcases c with _ | c'
      · rfl
      · by_cases hb : (a.stale_cache_on_error && respTruthy c') = true
        · simp only [hb, if_true]
        · simp only [Bool.not_eq_true] at hb
          simp only [hb, Bool.false_eq_true, if_false]
    · simp only [Bool.not_eq_true] at hs
      simp only [hs, Bool.false_eq_true, if_false]
      rcases hd : response_date a.dc r with _ | d
      · rfl
      · rcases ho : response_to_bytes
          { r with headers := ciSet r.headers "Expires" (a.dc.format (d + a.ttl)) } with _ | out
        · simp only [ho]
        · simp only [ho]
  · rfl

/-- C4 counterexample: for the response with status 200, reason `"OK"`, no
headers and raw body `b"\n"`, decoding the encoded bytes yields the body
`b""` instead — the round-trip is not exact for every response. -/
theorem c4_roundtrip_counterexample :
    (response_to_bytes c4Resp).bind bytes_to_response = some ⟨200, "OK", [], []⟩ ∧
      (⟨200, "OK", [], []⟩ : Response) ≠ c4Resp := by decide

/-- C4 (amended): for every response whose reason and header names/values
are ASCII and free of CR/LF, whose header names contain no `": "` and are
pairwise case-insensitively distinct, and whose body contains no `\r` byte
and does not end in `\n`, `bytes_to_response (response_to_bytes r)` returns
`r` exactly, including header order and body bytes. -/
theorem c4_roundtrip_wellformed (r : Response) (h : WFresp r) :
    (response_to_bytes r).bind bytes_to_response = some r :=
  responseBytes_roundtrip r h

theorem c4_roundtrip_witness :
    (response_to_bytes c4WResp).bind bytes_to_response = some c4WResp :=
  c4_roundtrip_wellformed c4WResp (by decide)

/-- C7: at `now = 1000000`, `older_than = 90`, an unexpired entry whose
`Date` (100) is far older than `older_than` is *kept* by the code
(`date > now + older_than` can never fire for past dates) while the claimed
criterion deletes it. -/
theorem c7_purge_age_inverted :
    purgeCacheDeletes decCodec 1000000 90 c7Entry = some false ∧
      purgeDeletesSpec decCodec 1000000 90 c7Entry = some true ∧
      100 + 90 < 1000000 := by decide

/-! ### Claim C8: cache_path -/
/-- C8 counterexample: for URL path `/feed.xml` with Accept
`application/json`, `with_suffix` *replaces* the `.xml` extension, giving
`feed.json`, not the appended `feed.xml.json` the claim describes. -/
theorem c8_cache_path_counterexample :
    cache_path "overcast.fm" [] "/feed.xml" "" (some "application/json") =
        ["overcast.fm", "feed.json"] ∧
      cache_path "overcast.fm" [] "/feed.xml" "" (some "application/json") ≠
        cache_path_specAppend "overcast.fm" [] "/feed.xml" "" (some "application/json") := by
  decide

theorem pyWithSuffix_no_suffix (n s : String) (h : pySuffixLen n.data = 0) :
    pyWithSuffix n s = n ++ s := by
  unfold pyWithSuffix
  rw [h, Nat.sub_zero, List.take_length, string_mk_data]

theorem withLastName_congr (f g : String → String) :
    ∀ l : List String, (∀ x, l.getLast? = some x → f x = g x) →
      withLastName l f = withLastName l g := by
  intro l
  induction l with
  | nil => intro _; rfl
  | cons x xs ih =>
    intro h
    cases xs with
    | nil =>
      have := h x rfl
      show [f x] = [g x]
      rw [this]
    | cons y ys =>
      show x :: withLastName (y :: ys) f = x :: withLastName (y :: ys) g
      rw [ih (fun z hz => h z ((List.getLast?_cons_cons).symm ▸ hz))]

/-- C8 (amended): `cache_path` is pure and deterministic in host, table,
URL path, query and Accept; the base path is `host/path-without-leading-
slash`, the query is appended literally as `?query`, and the Accept-derived
extension is *appended* whenever the final file name has no existing
extension in the `Path.suffix` sense (otherwise `with_suffix` replaces that
extension); an unknown or `*/*` Accept leaves the name unchanged. -/
theorem c8_cache_path_amended (host : String) (extra : List (String × String))
    (urlPath query : String) (accept : Option String)
    (h : pySuffixLen ((cache_path_base host urlPath query).getLastD "").data = 0) :
    cache_path host extra urlPath query accept =
      cache_path_specAppend host extra urlPath query accept := by
  unfold cache_path cache_path_specAppend
  cases accept with
  | none => rfl
  | some a =>
    simp only []
    cases hm : mimeLookup extra a with
    | none => rfl
    | some ext =>
      apply withLastName_congr
      intro x hx
      have hxl : x = (cache_path_base host urlPath query).getLastD "" := by
        rw [List.getLastD_eq_getLast?, hx]
        rfl
      rw [pyWithSuffix_no_suffix x ("." ++ ext) (by rw [hxl]; exact h)]
      rw [String.append_assoc]

theorem c8_cache_path_witness :
    cache_path "httpbin.org" [] "/get" "foo=bar" (some "application/json") =
      cache_path_specAppend "httpbin.org" [] "/get" "foo=bar" (some "application/json") :=
  c8_cache_path_amended "httpbin.org" [] "/get" "foo=bar" (some "application/json")
    (by decide)

/-! ### Claims C9 and C10: LRUCache.trim / save -/
theorem trimGo_spec {K V : Type} (sz : List (K × V) → Nat) (maxB : Nat) :
    ∀ (data : List (K × V)) (count : Nat) (d' : List (K × V)) (c : Nat),
    LRUCache.trimGo sz maxB data count = some (d', c) →
    sz d' ≤ maxB ∧ count ≤ c ∧ d' = data.drop (c - count) ∧
      c - count + d'.length = data.length := by
  intro data
  induction data with
  | nil =>
    intro count d' c h
    rw [LRUCache.trimGo] at h
    by_cases hsz : sz [] ≤ maxB
    · rw [if_pos hsz] at h
      simp only [Option.some.injEq, Prod.mk.injEq] at h
      obtain ⟨h1, h2⟩ := h
      subst h1; subst h2
      simp [hsz]
    · rw [if_neg hsz] at h
      simp at h
  | cons p rest ih =>
    intro count d' c h
    rw [LRUCache.trimGo] at h
    by_cases hsz : sz (p :: rest) ≤ maxB
    · rw [if_pos hsz] at h
      simp only [Option.some.injEq, Prod.mk.injEq] at h
      obtain ⟨h1, h2⟩ := h
      subst h1; subst h2
      simp [hsz]
    · rw [if_neg hsz] at h
      have := ih (count + 1) d' c h
      obtain ⟨h1, h2, h3, h4⟩ := this
      refine ⟨h1, by omega, ?_, ?_⟩
      · rw [h3]
        have : c - count = (c - (count + 1)) + 1 := by omega
        rw [this, List.drop_succ_cons]
      · simp only [List.length_cons]
        omega

/-- C9: when `trim()` returns normally with eviction count `c`, the
serialized size of the surviving map is within the budget, the survivors are
exactly the suffix of the recency order after dropping the `c`
least-recently-used entries (head first), and `c` accounts precisely for the
removed entries. -/
theorem c9_trim_lru (K V : Type) (sz : List (K × V) → Nat) (maxB : Nat)
    (data d' : List (K × V)) (c : Nat)
    (h : LRUCache.trim sz maxB data = some (d', c)) :
    sz d' ≤ maxB ∧ d' = data.drop c ∧ c + d'.length = data.length := by
  have := trimGo_spec sz maxB data 0 d' c h
  simpa using this

theorem c9_trim_lru_witness :
    LRUCache.trim szW 20 [(1, 1), (2, 2), (3, 3)] = some ([(3, 3)], 2) ∧
      (szW [(3, 3)] ≤ 20 ∧ [((3 : Nat), (3 : Nat))] = [(1, 1), (2, 2), (3, 3)].drop 2 ∧
        2 + [((3 : Nat), (3 : Nat))].length = [(1, 1), (2, 2), (3, 3)].length) :=
  ⟨by decide, c9_trim_lru Nat Nat szW 20 [(1, 1), (2, 2), (3, 3)] [(3, 3)] 2 (by decide)⟩

theorem trimGo_none_of_over {K V : Type} (sz : List (K × V) → Nat) (maxB : Nat)
    (hmono : ∀ l : List (K × V), sz [] ≤ sz l) (hover : maxB < sz []) :
    ∀ (data : List (K × V)) (count : Nat), LRUCache.trimGo sz maxB data count = none := by
  intro data
  induction data with
  | nil =>
    intro count
    rw [LRUCache.trimGo]
    rw [if_neg (by omega)]
  | cons p rest ih =>
    intro count
    rw [LRUCache.trimGo]
    have : ¬ sz (p :: rest) ≤ maxB := by
      have := hmono (p :: rest)
      omega
    rw [if_neg this]
    exact ih (count + 1)

theorem trimGo_isSome_of_fits {K V : Type} (sz : List (K × V) → Nat) (maxB : Nat)
    (hfits : sz [] ≤ maxB) :
    ∀ (data : List (K × V)) (count : Nat),
      (LRUCache.trimGo sz maxB data count).isSome = true := by
  intro data
  induction data with
  | nil =>
    intro count
    rw [LRUCache.trimGo, if_pos hfits]
    rfl
  | cons p rest ih =>
    intro count
    rw [LRUCache.trimGo]
    by_cases hsz : sz (p :: rest) ≤ maxB
    · rw [if_pos hsz]; rfl
    · rw [if_neg hsz]
      exact ih (count + 1)

/-- C10: when the serialized empty map already exceeds the budget (and the
serialized size is monotone, as `pickle` is), `trim()` — and hence a `save()`
that has a path and pending changes — ends in the uncaught `IndexError`
(`none`); conversely `trim()` returns normally whenever the empty map fits
the budget. -/
theorem c10_trim_total_iff (K V : Type) (sz : List (K × V) → Nat) (maxB : Nat)
    (data : List (K × V)) (hmono : ∀ l : List (K × V), sz [] ≤ sz l) :
    (maxB < sz [] →
      LRUCache.trim sz maxB data = none ∧
        LRUCache.save sz maxB true true data = none) ∧
    (sz [] ≤ maxB → (LRUCache.trim sz maxB data).isSome = true) := by
  constructor
  · intro hover
    have htrim : LRUCache.trim sz maxB data = none :=
      trimGo_none_of_over sz maxB hmono hover data 0
    refine ⟨htrim, ?_⟩
    unfold LRUCache.save
    rw [htrim]
    rfl
  · intro hfits
    exact trimGo_isSome_of_fits sz maxB hfits data 0

theorem c10_trim_total_iff_witness :
    LRUCache.trim szW 3 [(1, 1)] = none ∧ LRUCache.save szW 3 true true [(1, 1)] = none :=
  (c10_trim_total_iff Nat Nat szW 3 [(1, 1)] (fun l => by simp [szW])).1 (by decide)

/-- C1 counterexample: a fetch whose network request returns 429 while a
stale cached success entry exists does *not* raise `RatedLimitedError` —
the cache layer recovers the 429 via the stale-cache fallback and
`_request` returns the cached entry. -/
theorem c1_rate_limited_counterexample :
    c1Args.net = NetResult.resp resp429 ∧ resp429.status_code = 429 ∧
      overcastRequest c1Args = ReqOutcome.ok cached200 ∧
      overcastRequest c1Args ≠ ReqOutcome.ratedLimited := by decide

/-- C1 (amended): through `_request` (which always leaves
`stale_cache_on_error` at its default `True`), an HTTP 429 reaches the
caller as `RatedLimitedError` exactly when the cache layer re-raises it:
when no cached entry exists, or when the cached entry is falsy (an
error-status response); when a truthy stale cached entry exists the 429 is
silently recovered inside the cache layer and the stale entry is returned. -/
theorem c1_rate_limited_amended (a : GetArgs) (r : Response) (hoff : a.offline = false)
    (hnet : a.net = NetResult.resp r) (h429 : r.status_code = 429) :
    (a.file = none → overcastRequest a = ReqOutcome.ratedLimited) ∧
    (∀ bs c d e, a.file = some bs → bytes_to_response bs = some c →
      response_date a.dc c = some d → response_expires a.dc c = some e → ¬ a.now < e →
      (respTruthy c = false → overcastRequest a = ReqOutcome.ratedLimited) ∧
      (respTruthy c = true → infixBytes loginMarker c.content = false →
        overcastRequest a = ReqOutcome.ok c)) := by
  have hs429 : isErrorStatus r.status_code = true := by rw [h429]; decide
  constructor
  · intro hfile
    unfold overcastRequest
    rw [get_nofile { a with stale_cache_on_error := true } hfile, if_neg (by simpa using hoff),
      networkPhase_httpError_nocache { a with stale_cache_on_error := true } r hnet hs429]
    simp only [h429]
    rfl
  · intro bs c d e hfile hdec hdate hexp hstale
    constructor
    · intro htr
      unfold overcastRequest
      rw [get_stale_path { a with stale_cache_on_error := true } bs c d e hfile hdec hdate
        hexp hstale, if_neg (by simpa using hoff),
        networkPhase_httpError_cached { a with stale_cache_on_error := true } c r hnet hs429]
      rw [if_neg (by simp [htr])]
      simp only [h429]
      rfl
    · intro htr hmk
      unfold overcastRequest
      rw [get_stale_path { a with stale_cache_on_error := true } bs c d e hfile hdec hdate
        hexp hstale, if_neg (by simpa using hoff),
        networkPhase_httpError_cached { a with stale_cache_on_error := true } c r hnet hs429]
      rw [if_pos (by simp [htr])]
      simp only [hmk]
      rfl

theorem c1_rate_limited_witness :
    overcastRequest c1wArgs = ReqOutcome.ratedLimited :=
  (c1_rate_limited_amended c1wArgs resp429 rfl rfl rfl).1 rfl

/-- C2 counterexample: a transport failure (an exception from `send`, not an
`HTTPError`) propagates even though `stale_cache_on_error` is true and a
stale cached entry exists — the `except requests.HTTPError` handler does not
cover it, so no stale fallback happens. -/
theorem c2_transport_counterexample :
    c2Args.stale_cache_on_error = true ∧ c2Args.file ≠ none ∧
      c2Args.net = NetResult.transportErr ∧
      (Session.get c2Args).outcome = Outcome.transportErr := by decide

/-- C2 (amended): for a fetch that reaches the network: an HTTP error
status (4xx/5xx, via `raise_for_status`) is recovered as `(cached, true)`
exactly when `stale_cache_on_error` holds and a truthy cached entry exists,
and propagates otherwise; a transport failure always propagates unchanged,
with no stale fallback. -/
theorem c2_stale_fallback_amended (a : GetArgs) (hoff : a.offline = false) :
    (∀ bs c d e, a.file = some bs → bytes_to_response bs = some c →
      response_date a.dc c = some d → response_expires a.dc c = some e → ¬ a.now < e →
      (∀ r, a.net = NetResult.resp r → isErrorStatus r.status_code = true →
        ((a.stale_cache_on_error && respTruthy c) = true →
          Session.get a =
            ⟨.ok c true, a.file, max a.now (a.lastRequestAt + a.minTime), true⟩) ∧
        ((a.stale_cache_on_error && respTruthy c) = false →
          Session.get a =
            ⟨.httpErr r, a.file, max a.now (a.lastRequestAt + a.minTime), true⟩)) ∧
      (a.net = NetResult.transportErr →
        Session.get a =
          ⟨.transportErr, a.file, max a.now (a.lastRequestAt + a.minTime), true⟩)) ∧
    (a.file = none →
      (∀ r, a.net = NetResult.resp r → isErrorStatus r.status_code = true →
        Session.get a = ⟨.httpErr r, a.file, max a.now (a.lastRequestAt + a.minTime), true⟩) ∧
      (a.net = NetResult.transportErr →
        Session.get a =
          ⟨.transportErr, a.file, max a.now (a.lastRequestAt + a.minTime), true⟩)) := by
  constructor
  · intro bs c d e hfile hdec hdate hexp hstale
    constructor
    · intro r hnet hs
      constructor
      · intro hb
        rw [get_stale_path a bs c d e hfile hdec hdate hexp hstale, if_neg (by simp [hoff]),
          networkPhase_httpError_cached a c r hnet hs, if_pos hb]
      · intro hb
        rw [get_stale_path a bs c d e hfile hdec hdate hexp hstale, if_neg (by simp [hoff]),
          networkPhase_httpError_cached a c r hnet hs, if_neg (by simp [hb])]
    · intro hnet
      rw [get_stale_path a bs c d e hfile hdec hdate hexp hstale, if_neg (by simp [hoff]),
        networkPhase_transport a (some c) hnet]
  · intro hfile
    constructor
    · intro r hnet hs
      rw [get_nofile a hfile, if_neg (by simp [hoff]),
        networkPhase_httpError_nocache a r hnet hs]
    · intro hnet
      rw [get_nofile a hfile, if_neg (by simp [hoff]), networkPhase_transport a none hnet]

theorem c2_stale_fallback_witness :
    Session.get c2wArgs =
      ⟨Outcome.ok cached200 true, c2wArgs.file,
        max c2wArgs.now (c2wArgs.lastRequestAt + c2wArgs.minTime), true⟩ :=
  (((c2_stale_fallback_amended c2wArgs rfl).1 cached200Bytes cached200 10 20
    (by decide) (by decide) (by decide) (by decide) (by decide)).1 c2wResp rfl
    (by decide)).1 (by decide)

/-- C6 counterexample: in offline mode, a *stale cached entry with an error
status* (falsy under `requests.Response.__bool__`) is treated as absent:
`OfflineError` is raised even though a cached entry exists at the key. -/
theorem c6_offline_counterexample :
    c6Args.offline = true ∧ c6Args.file ≠ none ∧
      (Session.get c6Args).outcome = Outcome.offlineErr := by decide

/-- C6 (amended): in offline mode no network I/O happens and the throttle
state is untouched; a cached entry is returned as `(cached, true)` when it
is fresh, or when it is stale but truthy (success status); a stale cached
entry with an error status — like a missing entry — raises `OfflineError`. -/
theorem c6_offline_amended (a : GetArgs) (hoff : a.offline = true) :
    (a.file = none → Session.get a = ⟨.offlineErr, a.file, a.lastRequestAt, false⟩) ∧
    (∀ bs c d e, a.file = some bs → bytes_to_response bs = some c →
      response_date a.dc c = some d → response_expires a.dc c = some e →
      (a.now < e → Session.get a = ⟨.ok c true, a.file, a.lastRequestAt, false⟩) ∧
      (¬ a.now < e → respTruthy c = true →
        Session.get a = ⟨.ok c true, a.file, a.lastRequestAt, false⟩) ∧
      (¬ a.now < e → respTruthy c = false →
        Session.get a = ⟨.offlineErr, a.file, a.lastRequestAt, false⟩)) := by
  constructor
  · intro hfile
    rw [get_nofile a hfile, if_pos hoff, offlinePhase_none]
  · intro bs c d e hfile hdec hdate hexp
    refine ⟨?_, ?_, ?_⟩
    · intro hfresh
      exact get_fresh_path a bs c d e hfile hdec hdate hexp hfresh
    · intro hstale htr
      rw [get_stale_path a bs c d e hfile hdec hdate hexp hstale, if_pos hoff,
        offlinePhase_truthy a c htr]
    · intro hstale htr
      rw [get_stale_path a bs c d e hfile hdec hdate hexp hstale, if_pos hoff,
        offlinePhase_untruthy a c htr]

theorem c6_offline_witness :
    Session.get c6wArgs = ⟨Outcome.offlineErr, none, 0, false⟩ :=
  (c6_offline_amended c6wArgs rfl).1 rfl

/-! ### Claims C3 and C5: Expires stamping and freshness -/
theorem get_write_success (a : GetArgs) (r : Response) (d : Nat) (out : List Nat)
    (hfile : a.file = none) (hoff : a.offline = false)
    (hnet : a.net = NetResult.resp r) (hst : isErrorStatus r.status_code = false)
    (hdate : response_date a.dc r = some d)
    (hout : response_to_bytes
        { r with headers := ciSet r.headers "Expires" (a.dc.format (d + a.ttl)) } = some out) :
    Session.get a =
      ⟨.ok { r with headers := ciSet r.headers "Expires" (a.dc.format (d + a.ttl)) } false,
        some out, max a.now (a.lastRequestAt + a.minTime), true⟩ := by
  rw [get_nofile a hfile, if_neg (by simp [hoff]),
    networkPhase_success a none r out hnet hst hdate hout]

theorem response_date_ciSet_expires (dc : DateCodec) (r : Response) (v : String) :
    response_date dc { r with headers := ciSet r.headers "Expires" v } =
      response_date dc r := by
  unfold response_date
  simp only []
  rw [ciGet_ciSet_other r.headers "Expires" v "Date" (by decide)]

theorem response_expires_ciSet (dc : DateCodec) (r : Response) (v : String) :
    response_expires dc { r with headers := ciSet r.headers "Expires" v } = dc.parse v := by
  unfold response_expires
  simp only []
  rw [ciGet_ciSet_same r.headers "Expires" v]

/-- C3 counterexample: a successful fetch with `ttl = 0` persists an entry
that *does* carry an `Expires` header (equal to the response `Date`), not an
entry without one as the claim states. -/
theorem c3_ttl0_counterexample :
    c3Args.ttl = 0 ∧
      ((Session.get c3Args).file.bind bytes_to_response).map
        (fun r => ciContains r.headers "Expires") = some true := by decide

/-- C3 (amended): a successful network fetch always stamps
`Expires = Date + ttl` (for `ttl = 0`, `Expires = Date`) on the persisted
entry; the persisted entry therefore parses back with
`expires_at = Date + ttl`, and with `ttl = 0` any later read (at a time not
before the response date) finds it already expired and never serves it as a
fresh hit. -/
theorem c3_expires_stamp_amended (a : GetArgs) (r r' : Response) (d : Nat)
    (hr' : r' = { r with headers := ciSet r.headers "Expires" (a.dc.format (d + a.ttl)) })
    (hfile : a.file = none) (hoff : a.offline = false)
    (hnet : a.net = NetResult.resp r) (hst : isErrorStatus r.status_code = false)
    (hdate : response_date a.dc r = some d)
    (hWF : WFresp r')
    (hparse : a.dc.parse (a.dc.format (d + a.ttl)) = some (d + a.ttl)) :
    (Session.get a).outcome = .ok r' false ∧
      (Session.get a).file = response_to_bytes r' ∧
      ciGet r'.headers "Expires" = some (a.dc.format (d + a.ttl)) ∧
      response_expires a.dc r' = some (d + a.ttl) ∧
      (a.ttl = 0 → ∀ now₂, d ≤ now₂ →
        (Session.get { a with file := (Session.get a).file, now := now₂ }).networkCalled
          = true) := by
  subst hr'
  have hrt := responseBytes_roundtrip _ hWF
  rcases ho : response_to_bytes
      { r with headers := ciSet r.headers "Expires" (a.dc.format (d + a.ttl)) } with _ | out
  · rw [ho] at hrt; simp at hrt
  · rw [ho] at hrt
    simp only [Option.some_bind] at hrt
    have hget := get_write_success a r d out hfile hoff hnet hst hdate ho
    refine ⟨by rw [hget], by rw [hget], ciGet_ciSet_same r.headers "Expires" _, ?_, ?_⟩
    · rw [response_expires_ciSet a.dc r _, hparse]
    · intro httl now₂ hnow₂
      rw [hget]
      have hstale₂ : ¬ ({ a with file := some out, now := now₂ } : GetArgs).now < d + a.ttl := by
        simp only []
        omega
      rw [get_stale_path { a with file := some out, now := now₂ } out
        { r with headers := ciSet r.headers "Expires" (a.dc.format (d + a.ttl)) } d (d + a.ttl)
        rfl hrt
        (by rw [response_date_ciSet_expires a.dc r _]; exact hdate)
        (by rw [response_expires_ciSet a.dc r _]; exact hparse)
        hstale₂]
      rw [if_neg (by simp [hoff])]
      exact networkPhase_networkCalled _ _

theorem c3_expires_stamp_witness :
    (Session.get c3Args).outcome = Outcome.ok c3R' false ∧
      (Session.get c3Args).file = response_to_bytes c3R' ∧
      ciGet c3R'.headers "Expires" = some (c3Args.dc.format (50 + c3Args.ttl)) ∧
      response_expires c3Args.dc c3R' = some (50 + c3Args.ttl) ∧
      (c3Args.ttl = 0 → ∀ now₂, 50 ≤ now₂ →
        (Session.get
          { c3Args with file := (Session.get c3Args).file, now := now₂ }).networkCalled
            = true) :=
  c3_expires_stamp_amended c3Args c3NetResp c3R' 50 (by decide) rfl rfl rfl (by decide)
    (by decide) (by decide) (by decide)

/-- C5: (a) a fetch that finds a fresh cached entry returns it as
`(cached, true)` with the cache file, the throttle timestamp and the network
untouched; (b) after a successful fetch with `ttl > 0`, an immediate second
fetch of the same key (any time before `Date + ttl`) is a cache hit with an
identical body, no network call and unchanged throttle state. -/
theorem c5_fresh_hit_no_network (a : GetArgs) :
    (∀ bs c d e, a.file = some bs → bytes_to_response bs = some c →
      response_date a.dc c = some d → response_expires a.dc c = some e → a.now < e →
      Session.get a = ⟨.ok c true, a.file, a.lastRequestAt, false⟩) ∧
    (∀ r r' d now₂,
      r' = { r with headers := ciSet r.headers "Expires" (a.dc.format (d + a.ttl)) } →
      a.file = none → a.offline = false → a.net = NetResult.resp r →
      isErrorStatus r.status_code = false → response_date a.dc r = some d →
      WFresp r' → a.dc.parse (a.dc.format (d + a.ttl)) = some (d + a.ttl) →
      0 < a.ttl → now₂ < d + a.ttl →
      Session.get { a with file := (Session.get a).file, now := now₂ } =
          ⟨.ok r' true, (Session.get a).file, a.lastRequestAt, false⟩ ∧
        r'.content = r.content) := by
  constructor
  · intro bs c d e hfile hdec hdate hexp hfresh
    exact get_fresh_path a bs c d e hfile hdec hdate hexp hfresh
  · intro r r' d now₂ hr' hfile hoff hnet hst hdate hWF hparse httl hfresh₂
    subst hr'
    have hrt := responseBytes_roundtrip _ hWF
    rcases ho : response_to_bytes
        { r with headers := ciSet r.headers "Expires" (a.dc.format (d + a.ttl)) } with _ | out
    · rw [ho] at hrt; simp at hrt
    · rw [ho] at hrt
      simp only [Option.some_bind] at hrt
      have hget := get_write_success a r d out hfile hoff hnet hst hdate ho
      rw [hget]
      refine ⟨?_, rfl⟩
      exact get_fresh_path { a with file := some out, now := now₂ } out
        { r with headers := ciSet r.headers "Expires" (a.dc.format (d + a.ttl)) } d (d + a.ttl)
        rfl hrt
        (by rw [response_date_ciSet_expires a.dc r _]; exact hdate)
        (by rw [response_expires_ciSet a.dc r _]; exact hparse)
        (by simp only []; omega)

theorem c5_fresh_hit_witness :
    Session.get { c5Args with file := (Session.get c5Args).file, now := 100 } =
        ⟨Outcome.ok c5R' true, (Session.get c5Args).file, c5Args.lastRequestAt, false⟩ ∧
      c5R'.content = c5NetResp.content :=
  (c5_fresh_hit_no_network c5Args).2 c5NetResp c5R' 50 100 (by decide) rfl rfl rfl
    (by decide) (by decide) (by decide) (by decide) (by decide) (by decide)
